import Mathlib

/-!
Verification of the openfreemap-worldmap UI component (`src/App.tsx`).

The development shallowly embeds the pure and state-manipulating parts of
the component in Lean: machine arithmetic of the polyline decoder is
modelled with `Int`/`Nat` together with explicit 32-bit reductions
matching JavaScript bitwise-operator semantics, strings are modelled as
lists of UTF-16 code units (`List Nat`) or `List Char`, coordinates as
rationals, and the event-driven parts (search-request cancellation,
overlay loading, local-storage mirroring) as explicit state-transition
functions.
-/

/-! ## JavaScript 32-bit integer semantics

JavaScript bitwise operators convert their operands with `ToInt32`
(two's-complement wrap-around into `[-2^31, 2^31)`) and operate on the
32-bit pattern.  `natOr` is bitwise or on the unsigned representations.
-/

/-- `ToInt32`: wrap an integer into the signed 32-bit range. -/
def toInt32 (x : Int) : Int := (x + 2147483648) % 4294967296 - 2147483648

/-- The unsigned 32-bit representation of an integer (the bit pattern as a `Nat`). -/
def toUInt32Repr (x : Int) : Nat := (x % 4294967296).toNat

/-- Bitwise or on natural numbers, by binary recursion. -/
def natOr (x y : Nat) : Nat :=
  if x = 0 then y
  else 2 * natOr (x / 2) (y / 2) + max (x % 2) (y % 2)
termination_by x
decreasing_by exact Nat.div_lt_self (by omega) (by omega)

/-- JavaScript `x | y` on 32-bit integers. -/
def jsOr (x y : Int) : Int := toInt32 (natOr (toUInt32Repr x) (toUInt32Repr y))

/-- JavaScript `x & 0x1f`: the low five bits of the 32-bit pattern. -/
def jsAnd31 (x : Int) : Int := toInt32 x % 32

/-- JavaScript `x << s`: shift count is reduced mod 32, result wraps to 32 bits. -/
def jsShl (x : Int) (s : Nat) : Int := toInt32 (toInt32 x * 2 ^ (s % 32))

/-- JavaScript `x >> 1` (sign-propagating shift): floor division of the 32-bit value by 2. -/
def jsShr1 (x : Int) : Int := (toInt32 x).fdiv 2

/-- JavaScript `~x` on a 32-bit integer. -/
def jsNot (x : Int) : Int := -(toInt32 x) - 1

/-! ## The polyline6 decoder `decodeValhallaShape`

From `App.tsx`:
```
function decodeValhallaShape(shape: string): [number, number][] {
  let index = 0, lat = 0, lon = 0; const coordinates: [number, number][] = [];
  const factor = 1e-6;
  while (index < shape.length) {
    let b = 0, shift = 0, result = 0;
    do { b = shape.charCodeAt(index++) - 63; result |= (b & 0x1f) << shift; shift += 5; }
    while (b >= 0x20);
    const dlat = (result & 1) ? ~(result >> 1) : (result >> 1); lat += dlat;
    shift = 0; result = 0;
    do { b = shape.charCodeAt(index++) - 63; result |= (b & 0x1f) << shift; shift += 5; }
    while (b >= 0x20);
    const dlon = (result & 1) ? ~(result >> 1) : (result >> 1); lon += dlon;
    coordinates.push([lon * factor, lat * factor]);
  }
  return coordinates;
}
```
The string is modelled as its list of UTF-16 code units.  One `do … while`
chunk loop is `readChunks`; reading past the end of the string yields
`NaN`, for which `NaN & 0x1f` is `0` (so `result` is unchanged by the
`|=`) and `NaN >= 0x20` is false (so the loop exits) — hence the `[]`
case returns `result` unchanged.  The float multiplication `lon * 1e-6`
is modelled as exact division of rationals.
-/

/-- One `do { b = …; result |= (b & 0x1f) << shift; shift += 5 } while (b >= 0x20)`
loop of the decoder, returning the accumulated `result` and the remaining input. -/
def readChunks : List Nat → Int → Nat → Int × List Nat
  | [], result, _ => (result, [])
  | c :: rest, result, shift =>
    let b : Int := (c : Int) - 63
    let result2 := jsOr result (jsShl (jsAnd31 b) shift)
    if 32 ≤ b then readChunks rest result2 (shift + 5) else (result2, rest)

/-- `(result & 1) ? ~(result >> 1) : (result >> 1)`. -/
def zigzagDecode (result : Int) : Int :=
  if result % 2 = 1 then jsNot (jsShr1 result) else jsShr1 result

theorem readChunks_snd_length (l : List Nat) (r : Int) (s : Nat) :
    ((readChunks l r s).2).length ≤ l.length := by
  induction l generalizing r s with
  | nil => simp [readChunks]
  | cons c rest ih =>
    simp only [readChunks]
    split
    · exact le_trans (ih _ _) (by simp)
    · simp

theorem readChunks_cons_snd_length (c : Nat) (rest : List Nat) (r : Int) (s : Nat) :
    ((readChunks (c :: rest) r s).2).length ≤ rest.length := by
  simp only [readChunks]
  split
  · exact readChunks_snd_length rest _ _
  · simp

/-- The outer `while (index < shape.length)` loop of `decodeValhallaShape`,
carrying the running `lat`/`lon` accumulators (in micro-degrees). -/
def decodeLoop : List Nat → Int → Int → List (ℚ × ℚ)
  | [], _, _ => []
  | c :: rest, lat, lon =>
    let p1 := readChunks (c :: rest) 0 0
    let lat2 := lat + zigzagDecode p1.1
    let p2 := readChunks p1.2 0 0
    let lon2 := lon + zigzagDecode p2.1
    ((lon2 : ℚ) / 1000000, (lat2 : ℚ) / 1000000) :: decodeLoop p2.2 lat2 lon2
termination_by l => l.length
decreasing_by
  simp only [List.length_cons]
  exact Nat.lt_succ_of_le
    (le_trans (readChunks_snd_length _ _ _) (readChunks_cons_snd_length _ _ _ _))

/-- `decodeValhallaShape`, on the code units of the input string. -/
def decodeValhallaShape (shape : List Nat) : List (ℚ × ℚ) :=
  decodeLoop shape 0 0

/-! ## The standard polyline encoding at precision 1e-6 (reference, from the spec)

The spec calls the decoded format "a compact polyline encoding returned by
a routing service … a well-known, already-standardized format" (polyline6).
The encoder is not part of the repository; it is the standard reference
encoding against which the decoder is checked.
-/

/-- Modelled from the spec: the standard polyline chunk encoding of one
non-negative value — five-bit groups, least significant first, each group
or-ed with 0x20 while more groups follow, plus 63. -/
def encodeUnsigned (n : Nat) : List Nat :=
  if n < 32 then [n + 63] else (n % 32 + 95) :: encodeUnsigned (n / 32)
termination_by n
decreasing_by exact Nat.div_lt_self (by omega) (by omega)

/-- Modelled from the spec: the standard polyline zigzag step, mapping a
signed delta to the non-negative value whose low bit is the sign. -/
def zigzagEncode (d : Int) : Nat :=
  if d < 0 then (-2 * d - 1).toNat else (2 * d).toNat

/-- Modelled from the spec: the standard polyline encoding of a list of
(latitude, longitude) pairs in micro-degrees, as successive deltas. -/
def encodeLoop : List (Int × Int) → Int → Int → List Nat
  | [], _, _ => []
  | p :: rest, plat, plon =>
    encodeUnsigned (zigzagEncode (p.1 - plat)) ++
      encodeUnsigned (zigzagEncode (p.2 - plon)) ++ encodeLoop rest p.1 p.2

/-- Modelled from the spec: the standard polyline encoding at precision
1e-6 of a list of (latitude, longitude) pairs in degrees. -/
def encodePolyline6 (coords : List (ℚ × ℚ)) : List Nat :=
  encodeLoop (coords.map fun p => (round (p.1 * 1000000), round (p.2 * 1000000))) 0 0

/-! ### Arithmetic of the 32-bit helpers -/

theorem toInt32_eq_self {x : Int} (h0 : -2147483648 ≤ x) (h1 : x < 2147483648) :
    toInt32 x = x := by
  unfold toInt32; omega

theorem toUInt32Repr_eq_toNat {x : Int} (h0 : 0 ≤ x) (h1 : x < 4294967296) :
    toUInt32Repr x = x.toNat := by
  unfold toUInt32Repr; omega

theorem natOr_zero_right (x : Nat) : natOr x 0 = x := by
  induction x using Nat.strong_induction_on with
  | _ x ih =>
    rw [natOr]
    by_cases h : x = 0
    · simp [h]
    · rw [if_neg h, Nat.zero_div, ih (x / 2) (Nat.div_lt_self (by omega) (by omega))]
      omega


theorem natOr_eq_add {s : Nat} :
    ∀ {x m : Nat}, x < 2 ^ s → natOr x (m * 2 ^ s) = x + m * 2 ^ s := by
  induction s with
  | zero =>
    intro x m h
    have hx : x = 0 := by omega
    subst hx
    rw [natOr]
    simp
  | succ s ih =>
    intro x m h
    by_cases hx : x = 0
    · subst hx; rw [natOr]; simp
    · rw [natOr, if_neg hx]
      have e1 : m * 2 ^ (s + 1) / 2 = m * 2 ^ s := by
        rw [pow_succ, ← mul_assoc, Nat.mul_div_cancel _ (by norm_num : (0:Nat) < 2)]
      have e2 : m * 2 ^ (s + 1) % 2 = 0 := by
        rw [pow_succ, ← mul_assoc, Nat.mul_mod_left]
      rw [e1, e2]
      have hp : (2 : Nat) ^ (s + 1) = 2 ^ s * 2 := pow_succ 2 s
      have hx2 : x / 2 < 2 ^ s := by omega
      rw [ih hx2, Nat.max_zero]
      omega

theorem jsOr_eq_add {x : Int} {m s : Nat} (h0 : 0 ≤ x) (hx : x < 2 ^ s)
    (hsum : x + (m : Int) * 2 ^ s < 2147483648) :
    jsOr x ((m : Int) * 2 ^ s) = x + (m : Int) * 2 ^ s := by
  have hcast : (((2 : Nat) ^ s : Nat) : Int) = (2 : Int) ^ s := by push_cast; rfl
  have hms : (0 : Int) ≤ (m : Int) * 2 ^ s := by positivity
  have ecast : ((m : Int) * 2 ^ s) = ((m * 2 ^ s : Nat) : Int) := by push_cast; ring
  have e1 : toUInt32Repr x = x.toNat := toUInt32Repr_eq_toNat h0 (by omega)
  have e2 : toUInt32Repr ((m : Int) * 2 ^ s) = m * 2 ^ s := by
    rw [ecast, toUInt32Repr_eq_toNat (by positivity) (by push_cast; omega), Int.toNat_natCast]
  have hxn : x.toNat < 2 ^ s := by omega
  rw [jsOr, e1, e2, natOr_eq_add hxn, toInt32_eq_self (by omega) (by push_cast; omega)]
  push_cast
  omega

theorem jsAnd31_of_bounds {b : Int} (h0 : -2147483648 ≤ b) (h1 : b < 2147483648) :
    jsAnd31 b = b % 32 := by
  rw [jsAnd31, toInt32_eq_self h0 h1]

theorem jsShl_zero (s : Nat) : jsShl 0 s = 0 := by
  rw [jsShl]
  norm_num [toInt32]

theorem jsShl_eq {m : Int} {s : Nat} (h0 : 0 ≤ m) (hs : s < 32)
    (hb : m * 2 ^ s < 2147483648) : jsShl m s = m * 2 ^ s := by
  have hm1 : (1 : Int) ≤ 2 ^ s := one_le_pow₀ (by norm_num)
  have hms : (0 : Int) ≤ m * 2 ^ s := mul_nonneg h0 (by positivity)
  have hm31 : m < 2147483648 := lt_of_le_of_lt (le_mul_of_one_le_right h0 hm1) hb
  rw [jsShl, Nat.mod_eq_of_lt hs, toInt32_eq_self (by omega) hm31,
    toInt32_eq_self (by linarith) hb]

theorem jsOr_zero {x : Int} (h0 : 0 ≤ x) (h1 : x < 2147483648) : jsOr x 0 = x := by
  have e0 : toUInt32Repr 0 = 0 := by rw [toUInt32Repr]; rfl
  rw [jsOr, e0, toUInt32Repr_eq_toNat h0 (by omega), natOr_zero_right,
    toInt32_eq_self (by omega) (by omega)]
  omega

theorem readChunks_encodeUnsigned :
    ∀ (n : Nat) (result : Int) (shift : Nat) (rest : List Nat),
    0 ≤ result → result < 2 ^ shift →
    result + (n : Int) * 2 ^ shift < 2147483648 →
    readChunks (encodeUnsigned n ++ rest) result shift =
      (result + (n : Int) * 2 ^ shift, rest) := by
  intro n
  induction n using Nat.strong_induction_on with
  | _ n ih =>
    intro result shift rest h0 h1 h2
    have hpowpos : (0 : Int) < 2 ^ shift := by positivity
    by_cases hn : n < 32
    · rw [encodeUnsigned, if_pos hn, List.cons_append, List.nil_append]
      simp only [readChunks]
      have hb : ((n + 63 : Nat) : Int) - 63 = (n : Int) := by push_cast; ring
      rw [hb]
      rw [if_neg (by omega)]
      rcases Nat.eq_zero_or_pos n with hn0 | hn0
      · subst hn0
        have ha : jsAnd31 ((0 : Nat) : Int) = 0 := by
          rw [jsAnd31_of_bounds (by norm_num) (by norm_num)]
          rfl
        rw [ha, jsShl_zero, jsOr_zero h0 (by nlinarith)]
        norm_num
      · have hs32 : shift < 32 := by
          by_contra hcon
          have h32 : (32 : Nat) ≤ shift := by omega
          have : (2 : Int) ^ 32 ≤ 2 ^ shift := pow_le_pow_right₀ (by norm_num) h32
          have hnn : (1 : Int) ≤ (n : Int) := by exact_mod_cast hn0
          nlinarith
        have ha : jsAnd31 ((n : Nat) : Int) = (n : Int) := by
          rw [jsAnd31_of_bounds (by omega) (by omega)]
          omega
        have hmul : (n : Int) * 2 ^ shift < 2147483648 := by nlinarith
        rw [ha, jsShl_eq (by omega) hs32 hmul, jsOr_eq_add h0 h1 h2]
    · rw [encodeUnsigned, if_neg hn, List.cons_append]
      simp only [readChunks]
      have hb : ((n % 32 + 95 : Nat) : Int) - 63 = ((n % 32 : Nat) : Int) + 32 := by
        push_cast; ring
      rw [hb]
      rw [if_pos (by omega : (32 : Int) ≤ ((n % 32 : Nat) : Int) + 32)]
      have hn1 : (1 : Int) ≤ (n : Int) := by
        have : (1 : Nat) ≤ n := by omega
        exact_mod_cast this
      have hs32 : shift < 32 := by
        by_contra hcon
        have h32 : (32 : Nat) ≤ shift := by omega
        have : (2 : Int) ^ 32 ≤ 2 ^ shift := pow_le_pow_right₀ (by norm_num) h32
        nlinarith
      have hmodle : ((n % 32 : Nat) : Int) ≤ (n : Int) := by
        have : n % 32 ≤ n := Nat.mod_le n 32
        exact_mod_cast this
      have hmod31 : ((n % 32 : Nat) : Int) < 32 := by
        have : n % 32 < 32 := Nat.mod_lt n (by omega)
        exact_mod_cast this
      have ha : jsAnd31 (((n % 32 : Nat) : Int) + 32) = ((n % 32 : Nat) : Int) := by
        rw [jsAnd31_of_bounds (by omega) (by omega)]
        omega
      have hmul : ((n % 32 : Nat) : Int) * 2 ^ shift < 2147483648 := by nlinarith
      have hmulle : ((n % 32 : Nat) : Int) * 2 ^ shift ≤ (n : Int) * 2 ^ shift :=
        mul_le_mul_of_nonneg_right hmodle (le_of_lt hpowpos)
      rw [ha, jsShl_eq (by positivity) hs32 hmul, jsOr_eq_add h0 h1 (by linarith)]
      have hpow5 : (2 : Int) ^ (shift + 5) = 2 ^ shift * 32 := by
        rw [pow_add]; norm_num
      have hsplit : (n : Int) = 32 * ((n / 32 : Nat) : Int) + ((n % 32 : Nat) : Int) := by
        push_cast
        omega
      have key : ((n % 32 : Nat) : Int) * 2 ^ shift + ((n / 32 : Nat) : Int) * 2 ^ (shift + 5) =
          (n : Int) * 2 ^ shift := by
        rw [hpow5]
        linear_combination (-(2 ^ shift : Int)) * hsplit
      have hlt2 : result + ((n % 32 : Nat) : Int) * 2 ^ shift < 2 ^ (shift + 5) := by
        have h31 : ((n % 32 : Nat) : Int) * 2 ^ shift ≤ 31 * 2 ^ shift :=
          mul_le_mul_of_nonneg_right (by omega) (le_of_lt hpowpos)
        rw [hpow5]
        nlinarith
      have hres2 : (0 : Int) ≤ result + ((n % 32 : Nat) : Int) * 2 ^ shift := by
        have hx : (0 : Int) ≤ ((n % 32 : Nat) : Int) * 2 ^ shift :=
          mul_nonneg (by positivity) (le_of_lt hpowpos)
        linarith
      have hrec := ih (n / 32) (Nat.div_lt_self (by omega) (by omega))
        (result + ((n % 32 : Nat) : Int) * 2 ^ shift) (shift + 5) rest hres2 hlt2
        (by rw [add_assoc, key]; exact h2)
      rw [hrec, add_assoc, key]

theorem jsShr1_eq {x : Int} (h0 : -2147483648 ≤ x) (h1 : x < 2147483648) :
    jsShr1 x = x / 2 := by
  rw [jsShr1, toInt32_eq_self h0 h1, Int.fdiv_eq_ediv _ (by norm_num)]

theorem zigzagEncode_cast (d : Int) :
    ((zigzagEncode d : Nat) : Int) = if d < 0 then -2 * d - 1 else 2 * d := by
  rw [zigzagEncode]
  split
  · exact Int.toNat_of_nonneg (by omega)
  · exact Int.toNat_of_nonneg (by omega)

theorem zigzagDecode_zigzagEncode {d : Int} (h : d.natAbs ≤ 1000000000) :
    zigzagDecode ((zigzagEncode d : Nat) : Int) = d := by
  rw [zigzagDecode, zigzagEncode_cast]
  by_cases hd : d < 0
  · rw [if_pos hd]
    have hodd : (-2 * d - 1) % 2 = 1 := by omega
    rw [if_pos hodd, jsNot, jsShr1_eq (by omega) (by omega),
      toInt32_eq_self (by omega) (by omega)]
    omega
  · rw [if_neg hd]
    have heven : ¬((2 * d) % 2 = 1) := by omega
    rw [if_neg heven, jsShr1_eq (by omega) (by omega)]
    omega

theorem encodeUnsigned_ne_nil (n : Nat) : encodeUnsigned n ≠ [] := by
  rw [encodeUnsigned]
  split <;> simp

/-- One iteration of the decoder consumes exactly one chunk-encoded pair. -/
theorem decodeLoop_step (a b : Nat) (M : List Nat) (lat lon : Int)
    (ha : (a : Int) < 2147483648) (hb : (b : Int) < 2147483648) :
    decodeLoop (encodeUnsigned a ++ encodeUnsigned b ++ M) lat lon =
      (((lon + zigzagDecode b : Int) : ℚ) / 1000000,
       ((lat + zigzagDecode a : Int) : ℚ) / 1000000) ::
        decodeLoop M (lat + zigzagDecode a) (lon + zigzagDecode b) := by
  have h1 : readChunks (encodeUnsigned a ++ (encodeUnsigned b ++ M)) 0 0 =
      ((a : Int), encodeUnsigned b ++ M) := by
    have := readChunks_encodeUnsigned a 0 0 (encodeUnsigned b ++ M) le_rfl (by norm_num)
      (by simpa using ha)
    simpa using this
  have h2 : readChunks (encodeUnsigned b ++ M) 0 0 = ((b : Int), M) := by
    have := readChunks_encodeUnsigned b 0 0 M le_rfl (by norm_num) (by simpa using hb)
    simpa using this
  obtain ⟨c, t, hct⟩ := List.exists_cons_of_ne_nil (encodeUnsigned_ne_nil a)
  rw [List.append_assoc, hct, List.cons_append]
  rw [hct, List.cons_append] at h1
  simp only [decodeLoop, h1, h2]

theorem decodeLoop_encodeLoop (ps : List (Int × Int)) :
    ∀ (plat plon : Int),
    (∀ q ∈ ps, q.1.natAbs ≤ 90000000 ∧ q.2.natAbs ≤ 180000000) →
    plat.natAbs ≤ 90000000 → plon.natAbs ≤ 180000000 →
    decodeLoop (encodeLoop ps plat plon) plat plon =
      ps.map fun q => ((q.2 : ℚ) / 1000000, (q.1 : ℚ) / 1000000) := by
  induction ps with
  | nil =>
    intro plat plon _ _ _
    simp [encodeLoop, decodeLoop]
  | cons p rest ih =>
    intro plat plon hmem hplat hplon
    have hp := hmem p (List.mem_cons_self p rest)
    have hza : ((zigzagEncode (p.1 - plat) : Nat) : Int) < 2147483648 := by
      rw [zigzagEncode_cast]
      split <;> omega
    have hzb : ((zigzagEncode (p.2 - plon) : Nat) : Int) < 2147483648 := by
      rw [zigzagEncode_cast]
      split <;> omega
    rw [encodeLoop, decodeLoop_step _ _ _ _ _ hza hzb,
      zigzagDecode_zigzagEncode (by omega), zigzagDecode_zigzagEncode (by omega)]
    have ela : plat + (p.1 - plat) = p.1 := by ring
    have elo : plon + (p.2 - plon) = p.2 := by ring
    rw [ela, elo, ih p.1 p.2 (fun q hq => hmem q (List.mem_cons_of_mem p hq))
      hp.1 hp.2, List.map_cons]

theorem round_micro {x : ℚ} {a : ℤ} (hx : x = (a : ℚ) / 1000000) :
    round (x * 1000000) = a := by
  rw [hx, div_mul_cancel₀ _ (by norm_num : (1000000 : ℚ) ≠ 0), round_intCast]

theorem micro_natAbs (B : ℕ) {x : ℚ} {a : ℤ} (hx : x = (a : ℚ) / 1000000)
    (hB : |x| ≤ (B : ℚ)) : a.natAbs ≤ B * 1000000 := by
  rw [hx, abs_div, show |(1000000 : ℚ)| = 1000000 by norm_num,
    div_le_iff₀ (by norm_num : (0 : ℚ) < 1000000), ← Int.cast_abs] at hB
  have h2 : |a| ≤ (B : ℤ) * 1000000 := by exact_mod_cast hB
  rw [Int.abs_eq_natAbs] at h2
  omega

/-- C1: `decodeValhallaShape` is a correct polyline6 decoder: decoding the
string produced by the standard polyline encoding at precision 1e-6 of any
list of (latitude, longitude) coordinates whose components are integer
multiples of 1e-6 returns exactly that list as (longitude, latitude)
pairs, in order. -/
theorem c1_decode_encode_roundtrip (coords : List (ℚ × ℚ))
    (h : ∀ p ∈ coords,
      (∃ a : ℤ, p.1 = (a : ℚ) / 1000000) ∧ (∃ b : ℤ, p.2 = (b : ℚ) / 1000000) ∧
      |p.1| ≤ 90 ∧ |p.2| ≤ 180) :
    decodeValhallaShape (encodePolyline6 coords) = coords.map fun p => (p.2, p.1) := by
  rw [decodeValhallaShape, encodePolyline6]
  have hmem : ∀ q ∈ coords.map (fun p => (round (p.1 * 1000000), round (p.2 * 1000000))),
      q.1.natAbs ≤ 90000000 ∧ q.2.natAbs ≤ 180000000 := by
    intro q hq
    rw [List.mem_map] at hq
    obtain ⟨p, hp, rfl⟩ := hq
    obtain ⟨⟨a, ha⟩, ⟨b, hb⟩, h90, h180⟩ := h p hp
    constructor
    · rw [round_micro ha]
      have := micro_natAbs 90 ha (by exact_mod_cast h90)
      omega
    · rw [round_micro hb]
      have := micro_natAbs 180 hb (by exact_mod_cast h180)
      omega
  rw [decodeLoop_encodeLoop _ 0 0 hmem (by simp) (by simp), List.map_map]
  apply List.map_congr_left
  intro p hp
  obtain ⟨⟨a, ha⟩, ⟨b, hb⟩, h90, h180⟩ := h p hp
  simp only [Function.comp_apply]
  rw [round_micro ha, round_micro hb, ← ha, ← hb]

theorem decodeLoop_length_le_aux :
    ∀ (n : Nat) (l : List Nat), l.length ≤ n →
    ∀ (lat lon : Int), (decodeLoop l lat lon).length ≤ l.length := by
  intro n
  induction n with
  | zero =>
    intro l hl lat lon
    have hnil : l = [] := List.eq_nil_of_length_eq_zero (by omega)
    subst hnil
    simp [decodeLoop]
  | succ n ih =>
    intro l hl lat lon
    match l with
    | [] => simp [decodeLoop]
    | c :: rest =>
      simp only [decodeLoop, List.length_cons]
      have h1 := readChunks_cons_snd_length c rest 0 0
      have h2 := readChunks_snd_length (readChunks (c :: rest) 0 0).2 0 0
      have h3 := ih (readChunks (readChunks (c :: rest) 0 0).2 0 0).2
        (by simp only [List.length_cons] at hl; omega)
        (lat + zigzagDecode (readChunks (c :: rest) 0 0).1)
        (lon + zigzagDecode (readChunks (readChunks (c :: rest) 0 0).2 0 0).1)
      omega

theorem decodeLoop_length_le (l : List Nat) (lat lon : Int) :
    (decodeLoop l lat lon).length ≤ l.length :=
  decodeLoop_length_le_aux l.length l le_rfl lat lon

/-- C9: `decodeValhallaShape` terminates on every input string, malformed
or truncated ones included: decoding any finite string returns a finite
coordinate list, one of length at most the length of the input. -/
theorem c9_decodeValhallaShape_total (shape : List Nat) :
    (decodeValhallaShape shape).length ≤ shape.length :=
  decodeLoop_length_le shape 0 0

/-- Witness for C1 at a concrete coordinate list. -/
theorem c1_decode_encode_roundtrip_witness :
    decodeValhallaShape (encodePolyline6 [((1 : ℚ) / 1000000, (-3 : ℚ) / 1000000)]) =
      [((-3 : ℚ) / 1000000, (1 : ℚ) / 1000000)] := by
  have h := c1_decode_encode_roundtrip [((1 : ℚ) / 1000000, (-3 : ℚ) / 1000000)]
    (by
      intro p hp
      simp only [List.mem_singleton] at hp
      subst hp
      exact ⟨⟨1, by norm_num⟩, ⟨-3, by norm_num⟩, by norm_num [abs_le], by norm_num [abs_le]⟩)
  simpa using h

/-! ## Waypoints and the route planner (`App.tsx` lines 218-225)

```
function addWaypointAt(coord, name, index?) { const w = { id: uid(), name, coord };
  setWaypoints(prev => { const arr = prev.slice();
    if (index == null || index < 0 || index >= arr.length) arr.push(w);
    else arr.splice(index + 1, 0, w); return arr; }); }
function removeWaypoint(id) { setWaypoints(prev => prev.filter(w => w.id !== id)); }
function moveWaypoint(id, dir) { setWaypoints(prev => {
  const i = prev.findIndex(w => w.id === id); if (i < 0) return prev;
  const j = i + dir; if (j < 0 || j >= prev.length) return prev;
  const copy = prev.slice(); const [it] = copy.splice(i, 1); copy.splice(j, 0, it);
  return copy; }); }
```
-/

structure Waypoint where
  id : String
  name : String
  coord : ℚ × ℚ
deriving DecidableEq

/-- `removeWaypoint`: the updater `prev.filter(w => w.id !== id)`. -/
def removeWaypoint (id : String) (prev : List Waypoint) : List Waypoint :=
  prev.filter fun w => w.id != id

/-- `moveWaypoint`: the updater passed to `setWaypoints`.  `findIndex`
returning `-1` is the `none` case; `copy.splice(i, 1)` removes position
`i` and `copy.splice(j, 0, it)` re-inserts the element at position `j`. -/
def moveWaypoint (id : String) (dir : Int) (prev : List Waypoint) : List Waypoint :=
  match prev.findIdx? (fun w => w.id == id) with
  | none => prev
  | some i =>
    if (i : Int) + dir < 0 ∨ (prev.length : Int) ≤ (i : Int) + dir then prev
    else
      match prev[i]? with
      | none => prev
      | some it => (prev.eraseIdx i).insertIdx ((i : Int) + dir).toNat it

/-- `addWaypointAt`: the updater passed to `setWaypoints` — push at the
end when `index` is `null` or out of range, else `splice(index + 1, 0, w)`. -/
def addWaypointAt (w : Waypoint) (index : Option Int) (prev : List Waypoint) : List Waypoint :=
  match index with
  | none => prev ++ [w]
  | some i =>
    if i < 0 ∨ (prev.length : Int) ≤ i then prev ++ [w]
    else prev.insertIdx (i + 1).toNat w

theorem perm_cons_getElem_eraseIdx {α : Type} (l : List α) (i : Nat) (h : i < l.length) :
    (l[i] :: l.eraseIdx i).Perm l := by
  rw [List.eraseIdx_eq_take_drop_succ]
  have h1 : (l[i] :: (List.take i l ++ List.drop (i + 1) l)).Perm
      (List.take i l ++ l[i] :: List.drop (i + 1) l) := List.perm_middle.symm
  have h2 : List.take i l ++ l[i] :: List.drop (i + 1) l = l := by
    rw [List.getElem_cons_drop, List.take_append_drop]
  rw [h2] at h1
  exact h1

theorem moveWaypoint_eq_of_found {l : List Waypoint} {id : String} {d : Int} {i : Nat}
    (hfind : l.findIdx? (fun w => w.id == id) = some i)
    (hilt : i < l.length) (h0 : 0 ≤ (i : Int) + d) (h1 : (i : Int) + d < (l.length : Int)) :
    moveWaypoint id d l = (l.eraseIdx i).insertIdx ((i : Int) + d).toNat l[i] := by
  rw [moveWaypoint, hfind]
  simp only [if_neg (by omega : ¬((i : Int) + d < 0 ∨ (l.length : Int) ≤ (i : Int) + d)),
    List.getElem?_eq_getElem hilt]

/-- C4: the waypoint list stays an ordered list under the route-planner
operations: `moveWaypoint` on an id found at position `i` with direction
`d` and `i + d` in bounds returns the same multiset with that element at
position `i + d` and the remaining elements in unchanged relative order;
it returns the list unchanged when the id is absent or `i + d` is out of
bounds; `removeWaypoint` removes exactly the waypoints with the given id,
preserving the order of the rest. -/
theorem c4_waypoint_list_ops :
    (∀ (l : List Waypoint) (id : String) (d : Int) (i : Nat),
      l.findIdx? (fun w => w.id == id) = some i →
      0 ≤ (i : Int) + d → (i : Int) + d < (l.length : Int) →
      ((moveWaypoint id d l).Perm l ∧
       (moveWaypoint id d l)[((i : Int) + d).toNat]? = l[i]? ∧
       (moveWaypoint id d l).eraseIdx ((i : Int) + d).toNat = l.eraseIdx i)) ∧
    (∀ (l : List Waypoint) (id : String) (d : Int),
      l.findIdx? (fun w => w.id == id) = none → moveWaypoint id d l = l) ∧
    (∀ (l : List Waypoint) (id : String) (d : Int) (i : Nat),
      l.findIdx? (fun w => w.id == id) = some i →
      ((i : Int) + d < 0 ∨ (l.length : Int) ≤ (i : Int) + d) → moveWaypoint id d l = l) ∧
    (∀ (l : List Waypoint) (id : String),
      (removeWaypoint id l).Sublist l ∧
      ∀ w, w ∈ removeWaypoint id l ↔ (w ∈ l ∧ w.id ≠ id)) := by
  refine ⟨?_, ?_, ?_, ?_⟩
  · intro l id d i hfind h0 h1
    have hilt : i < l.length := (List.findIdx?_eq_some_iff_findIdx_eq.mp hfind).1
    have hres := moveWaypoint_eq_of_found hfind hilt h0 h1
    have hj : ((i : Int) + d).toNat ≤ (l.eraseIdx i).length := by
      rw [List.length_eraseIdx, if_pos hilt]
      omega
    refine ⟨?_, ?_, ?_⟩
    · rw [hres]
      exact (List.perm_insertIdx _ _ hj).trans (perm_cons_getElem_eraseIdx l i hilt)
    · rw [hres]
      have hlen : ((i : Int) + d).toNat < ((l.eraseIdx i).insertIdx ((i : Int) + d).toNat l[i]).length := by
        rw [List.length_insertIdx _ _ hj]
        omega
      rw [List.getElem?_eq_getElem hlen, List.getElem_insertIdx_self _ _ _ hj,
        List.getElem?_eq_getElem hilt]
    · rw [hres, List.eraseIdx_insertIdx]
  · intro l id d hfind
    rw [moveWaypoint, hfind]
  · intro l id d i hfind hout
    rw [moveWaypoint, hfind]
    simp only [if_pos hout]
  · intro l id
    refine ⟨List.filter_sublist l, ?_⟩
    intro w
    rw [removeWaypoint, List.mem_filter, bne_iff_ne]

/-- Witness for C4 at concrete waypoint lists. -/
theorem c4_waypoint_list_ops_witness :
    ((moveWaypoint "a" 1 [⟨"a", "A", (0, 0)⟩, ⟨"b", "B", (1, 1)⟩]).Perm
        [⟨"a", "A", (0, 0)⟩, ⟨"b", "B", (1, 1)⟩]) ∧
    moveWaypoint "z" 1 [⟨"a", "A", (0, 0)⟩, ⟨"b", "B", (1, 1)⟩] =
      [⟨"a", "A", (0, 0)⟩, ⟨"b", "B", (1, 1)⟩] ∧
    moveWaypoint "b" 1 [⟨"a", "A", (0, 0)⟩, ⟨"b", "B", (1, 1)⟩] =
      [⟨"a", "A", (0, 0)⟩, ⟨"b", "B", (1, 1)⟩] ∧
    (removeWaypoint "a" [⟨"a", "A", (0, 0)⟩, ⟨"b", "B", (1, 1)⟩]).Sublist
      [⟨"a", "A", (0, 0)⟩, ⟨"b", "B", (1, 1)⟩] := by
  refine ⟨?_, ?_, ?_, ?_⟩
  · exact (c4_waypoint_list_ops.1 [⟨"a", "A", (0, 0)⟩, ⟨"b", "B", (1, 1)⟩] "a" 1 0
      (by decide) (by decide) (by decide)).1
  · exact c4_waypoint_list_ops.2.1 [⟨"a", "A", (0, 0)⟩, ⟨"b", "B", (1, 1)⟩] "z" 1 (by decide)
  · exact c4_waypoint_list_ops.2.2.1 [⟨"a", "A", (0, 0)⟩, ⟨"b", "B", (1, 1)⟩] "b" 1 1
      (by decide) (by decide)
  · exact (c4_waypoint_list_ops.2.2.2 [⟨"a", "A", (0, 0)⟩, ⟨"b", "B", (1, 1)⟩] "a").1

/-! ## The straight-line route geometry (`updateRouteLine`, lines 210-216)

```
const coords = waypoints.map(w => w.coord);
const fc = coords.length >= 2
  ? [{ type: "Feature", geometry: { type: "LineString", coordinates: coords },
       properties: { name: "Route (Gerade)" } }]
  : [];
```
-/

structure LineStringFeature where
  coordinates : List (ℚ × ℚ)
  name : String
deriving DecidableEq

/-- The feature list `updateRouteLine` writes into the `routes` source. -/
def updateRouteLineFeatures (waypoints : List Waypoint) : List LineStringFeature :=
  let coords := waypoints.map fun w => w.coord
  if 2 ≤ coords.length then [⟨coords, "Route (Gerade)"⟩] else []

/-- C5: `updateRouteLine` writes a single LineString whose coordinate list
is the waypoint coordinates in list order whenever there are at least two
waypoints, and an empty feature collection whenever there are fewer. -/
theorem c5_updateRouteLine_geometry (waypoints : List Waypoint) :
    (2 ≤ waypoints.length →
      updateRouteLineFeatures waypoints = [⟨waypoints.map fun w => w.coord, "Route (Gerade)"⟩]) ∧
    (waypoints.length < 2 → updateRouteLineFeatures waypoints = []) := by
  constructor
  · intro h
    rw [updateRouteLineFeatures]
    simp only [List.length_map]
    rw [if_pos h]
  · intro h
    rw [updateRouteLineFeatures]
    simp only [List.length_map]
    rw [if_neg (by omega)]

/-- Witness for C5 at concrete waypoint lists. -/
theorem c5_updateRouteLine_geometry_witness :
    updateRouteLineFeatures [⟨"a", "A", (0, 0)⟩, ⟨"b", "B", (1, 1)⟩] =
      [⟨[(0, 0), (1, 1)], "Route (Gerade)"⟩] ∧
    updateRouteLineFeatures [⟨"a", "A", (0, 0)⟩] = [] := by
  constructor
  · have h := (c5_updateRouteLine_geometry [⟨"a", "A", (0, 0)⟩, ⟨"b", "B", (1, 1)⟩]).1
      (by decide)
    simpa using h
  · exact (c5_updateRouteLine_geometry [⟨"a", "A", (0, 0)⟩]).2 (by decide)

/-! ## Bounding-box bookkeeping (`runSearch` / `flyToSuggestion`)

`runSearch` stores `[f.bbox[1], f.bbox[0], f.bbox[3], f.bbox[2]]` as the
suggestion bbox; `flyToSuggestion` hands
`[[s.bbox[1], s.bbox[0]], [s.bbox[3], s.bbox[2]]]` to `fitBounds`.
A geocoder bbox is `[west, south, east, north]`, modelled as a 4-tuple.
-/

/-- The index permutation `runSearch` applies to `f.bbox` when building a
`Suggestion`. -/
def suggestionBbox (b : ℚ × ℚ × ℚ × ℚ) : ℚ × ℚ × ℚ × ℚ :=
  (b.2.1, b.1, b.2.2.2, b.2.2.1)

/-- The corner pairs `flyToSuggestion` passes to `fitBounds`, built from a
stored suggestion bbox. -/
def flyToBounds (b : ℚ × ℚ × ℚ × ℚ) : (ℚ × ℚ) × (ℚ × ℚ) :=
  ((b.2.1, b.1), (b.2.2.2, b.2.2.1))

/-- C6: for a geocoder bbox `[west, south, east, north]`, the bounds passed
to `fitBounds` are `[[west, south], [east, north]]` — the two index
permutations compose to the identity. -/
theorem c6_bbox_roundtrip (west south east north : ℚ) :
    flyToBounds (suggestionBbox (west, south, east, north)) = ((west, south), (east, north)) :=
  rfl

/-! ## Local-storage mirroring (C7)

```
function persistFavorites() { try { localStorage.setItem("worldmap.favorites", JSON.stringify(favoritesRef.current)); } catch {} }
function persistCurrentRoute() { try { localStorage.setItem("worldmap.routes.current", JSON.stringify(waypoints)); } catch {} }
function persistSavedRoutes(list) { try { localStorage.setItem("worldmap.routes.saved", JSON.stringify(list)); } catch {} }
function addFavorite(map, lngLat, title, icon) { … favoritesRef.current.push(f); … persistFavorites(); }
function updateRouteLine() { … persistCurrentRoute(); }
function saveCurrentRoute(name) { const r = …; const list = [r, ...savedRoutes];
  setSavedRoutes(list); persistSavedRoutes(list); }
function deleteRoute(id) { const list = savedRoutes.filter(x => x.id !== id);
  setSavedRoutes(list); persistSavedRoutes(list); }
```
JSON serialization is abstracted as a function argument; each local-storage
key holds an `Option String` (`none` = key absent).  `localStorage.setItem`
can throw (storage quota exceeded, storage disabled); each persist function
wraps the write in `try { … } catch {}`, so a throw is swallowed and the
key keeps its previous contents.  The environment's behaviour is the
boolean `ok`: whether the `setItem` call succeeds.
-/

structure GeoFeature where
  title : String
  icon : String
  coord : ℚ × ℚ
deriving DecidableEq

structure SavedRoute where
  id : String
  name : String
  waypoints : List Waypoint
deriving DecidableEq

structure LocalStorage where
  favoritesKey : Option String
  currentRouteKey : Option String
  savedRoutesKey : Option String
deriving DecidableEq

structure AppState where
  favorites : List GeoFeature
  waypoints : List Waypoint
  savedRoutes : List SavedRoute
  storage : LocalStorage
deriving DecidableEq

/-- `persistFavorites`: try to write the serialized current favorites under
`worldmap.favorites`; when `setItem` throws (`ok = false`) the empty
`catch` swallows the exception and the key is left as it was. -/
def persistFavorites (favJson : List GeoFeature → String) (ok : Bool) (st : AppState) : AppState :=
  if ok then { st with storage := { st.storage with favoritesKey := some (favJson st.favorites) } }
  else st

/-- `persistCurrentRoute`: try to write the serialized current waypoints
under `worldmap.routes.current`; a throw is swallowed. -/
def persistCurrentRoute (wpJson : List Waypoint → String) (ok : Bool) (st : AppState) : AppState :=
  if ok then { st with storage := { st.storage with currentRouteKey := some (wpJson st.waypoints) } }
  else st

/-- `persistSavedRoutes(list)`: try to write the serialized argument under
`worldmap.routes.saved`; a throw is swallowed. -/
def persistSavedRoutes (srJson : List SavedRoute → String) (ok : Bool) (list : List SavedRoute)
    (st : AppState) : AppState :=
  if ok then { st with storage := { st.storage with savedRoutesKey := some (srJson list) } }
  else st

/-- `addFavorite`: push the new feature, then persist. -/
def addFavorite (favJson : List GeoFeature → String) (ok : Bool) (f : GeoFeature)
    (st : AppState) : AppState :=
  persistFavorites favJson ok { st with favorites := st.favorites ++ [f] }

/-- A waypoint-list change (`setWaypoints` with any updater). -/
def setWaypoints (f : List Waypoint → List Waypoint) (st : AppState) : AppState :=
  { st with waypoints := f st.waypoints }

/-- The storage effect of `updateRouteLine` (it ends with `persistCurrentRoute()`). -/
def updateRouteLinePersist (wpJson : List Waypoint → String) (ok : Bool)
    (st : AppState) : AppState :=
  persistCurrentRoute wpJson ok st

/-- `saveCurrentRoute`: build the saved route, prepend it, persist the new list. -/
def saveCurrentRoute (srJson : List SavedRoute → String) (ok : Bool) (rid name : String)
    (st : AppState) : AppState :=
  let r : SavedRoute := ⟨rid, name, st.waypoints⟩
  let list := r :: st.savedRoutes
  persistSavedRoutes srJson ok list { st with savedRoutes := list }

/-- `deleteRoute`: filter out the route, persist the new list. -/
def deleteRoute (srJson : List SavedRoute → String) (ok : Bool) (id : String)
    (st : AppState) : AppState :=
  let list := st.savedRoutes.filter fun r => r.id != id
  persistSavedRoutes srJson ok list { st with savedRoutes := list }

/-- Counterexample to C7 as stated: when `localStorage.setItem` throws
(storage quota exceeded or storage disabled), the empty `catch {}`
swallows the exception — the in-memory favorites list gains the new
feature, but `worldmap.favorites` keeps its old value (here: absent) and
does not hold the JSON serialization of the new value. -/
theorem c7_counterexample :
    (addFavorite (fun l => toString l.length) false ⟨"F", "star-15", (0, 0)⟩
        ⟨[], [], [], ⟨none, none, none⟩⟩).favorites = [⟨"F", "star-15", (0, 0)⟩] ∧
    (addFavorite (fun l => toString l.length) false ⟨"F", "star-15", (0, 0)⟩
        ⟨[], [], [], ⟨none, none, none⟩⟩).storage.favoritesKey ≠
      some (toString ([(⟨"F", "star-15", (0, 0)⟩ : GeoFeature)] : List GeoFeature).length) := by
  constructor
  · rfl
  · decide

/-- C7 (amended): each persisting operation changes the in-memory value as
described and, whenever the `localStorage.setItem` call succeeds, leaves
the corresponding local-storage key holding the JSON serialization of the
new value; when `setItem` throws, the exception is swallowed and the
storage is unchanged while the in-memory value still changes. -/
theorem c7_storage_mirrors_state (favJson : List GeoFeature → String)
    (wpJson : List Waypoint → String) (srJson : List SavedRoute → String)
    (ok : Bool) (st : AppState) (f : GeoFeature) (upd : List Waypoint → List Waypoint)
    (rid name id : String) :
    ((addFavorite favJson ok f st).favorites = st.favorites ++ [f] ∧
     (ok = true → (addFavorite favJson ok f st).storage.favoritesKey =
       some (favJson (addFavorite favJson ok f st).favorites)) ∧
     (ok = false → (addFavorite favJson ok f st).storage = st.storage)) ∧
    ((updateRouteLinePersist wpJson ok (setWaypoints upd st)).waypoints = upd st.waypoints ∧
     (ok = true → (updateRouteLinePersist wpJson ok (setWaypoints upd st)).storage.currentRouteKey =
       some (wpJson (updateRouteLinePersist wpJson ok (setWaypoints upd st)).waypoints)) ∧
     (ok = false → (updateRouteLinePersist wpJson ok (setWaypoints upd st)).storage = st.storage)) ∧
    ((saveCurrentRoute srJson ok rid name st).savedRoutes =
       ⟨rid, name, st.waypoints⟩ :: st.savedRoutes ∧
     (ok = true → (saveCurrentRoute srJson ok rid name st).storage.savedRoutesKey =
       some (srJson (saveCurrentRoute srJson ok rid name st).savedRoutes)) ∧
     (ok = false → (saveCurrentRoute srJson ok rid name st).storage = st.storage)) ∧
    ((deleteRoute srJson ok id st).savedRoutes = st.savedRoutes.filter (fun r => r.id != id) ∧
     (ok = true → (deleteRoute srJson ok id st).storage.savedRoutesKey =
       some (srJson (deleteRoute srJson ok id st).savedRoutes)) ∧
     (ok = false → (deleteRoute srJson ok id st).storage = st.storage)) := by
  cases ok <;>
    simp [addFavorite, updateRouteLinePersist, saveCurrentRoute, deleteRoute, setWaypoints,
      persistFavorites, persistCurrentRoute, persistSavedRoutes]

/-- Witness for C7 (amended) at a concrete state, in both the successful
and the throwing `setItem` case. -/
theorem c7_storage_mirrors_state_witness :
    (addFavorite (fun l => toString l.length) true ⟨"F", "star-15", (0, 0)⟩
        ⟨[], [], [], ⟨none, none, none⟩⟩).storage.favoritesKey =
      some ((fun (l : List GeoFeature) => toString l.length)
        ((addFavorite (fun l => toString l.length) true ⟨"F", "star-15", (0, 0)⟩
          ⟨[], [], [], ⟨none, none, none⟩⟩).favorites)) ∧
    (addFavorite (fun l => toString l.length) false ⟨"F", "star-15", (0, 0)⟩
        ⟨[], [], [], ⟨none, none, none⟩⟩).storage =
      (⟨[], [], [], ⟨none, none, none⟩⟩ : AppState).storage := by
  constructor
  · exact (c7_storage_mirrors_state (fun l => toString l.length) (fun _ => "") (fun _ => "")
      true ⟨[], [], [], ⟨none, none, none⟩⟩ ⟨"F", "star-15", (0, 0)⟩ (fun w => w)
      "r" "n" "i").1.2.1 rfl
  · exact (c7_storage_mirrors_state (fun l => toString l.length) (fun _ => "") (fun _ => "")
      false ⟨[], [], [], ⟨none, none, none⟩⟩ ⟨"F", "star-15", (0, 0)⟩ (fun w => w)
      "r" "n" "i").1.2.2 rfl

/-! ## Overpass elements and `overpassElementToPointFeature` (lines 284-290)

```
function overpassElementToPointFeature(el, l) {
  const tags = el.tags || {}; const name = tags[`name:${l}`] || tags["name:latin"] || tags["name"] || null;
  const coord = el.type === "node" ? [el.lon, el.lat] : [el.center?.lon, el.center?.lat];
  if (!coord[0] || !coord[1]) return null;
  const subtitleParts = [tags["wikidata"] ? "Wikidata" : null, tags["heritage"] ? "Heritage" : null].filter(Boolean);
  const p = { title: name || "Objekt", subtitle: subtitleParts.join(" · ") };
  return { type: "Feature", geometry: { type: "Point", coordinates: coord }, properties: p };
}
```
Elements come from `res.json()`, so numeric fields are finite JSON numbers,
modelled as `Option ℚ` (`none` = the field, or `center`, is absent).
`!x` is JavaScript falsiness: `undefined` and `0` are falsy for a
JSON-derived numeric slot, `""` and `undefined` for a string.
-/

structure OverpassElement where
  typ : String
  lon : Option ℚ
  lat : Option ℚ
  centerLon : Option ℚ
  centerLat : Option ℚ
  tags : List (String × String)
deriving DecidableEq

structure PointFeature where
  coordinates : ℚ × ℚ
  title : String
  subtitle : String
deriving DecidableEq

/-- `tags[k]`, as an optional string. -/
def lookupTag (tags : List (String × String)) (k : String) : Option String :=
  (tags.find? fun t => t.1 == k).map fun t => t.2

/-- JavaScript `x || y` on optional strings: an absent or empty string is falsy. -/
def jsOrString (x : Option String) (y : Option String) : Option String :=
  match x with
  | some v => if v = "" then y else some v
  | none => y

/-- JavaScript falsiness of a JSON-derived numeric slot: absent or zero. -/
def falsyNum (c : Option ℚ) : Bool :=
  c.isNone || c == some 0

/-- The first coordinate slot: `el.lon` for a node, `el.center?.lon` otherwise. -/
def elemCoord0 (el : OverpassElement) : Option ℚ :=
  if el.typ = "node" then el.lon else el.centerLon

/-- The second coordinate slot: `el.lat` for a node, `el.center?.lat` otherwise. -/
def elemCoord1 (el : OverpassElement) : Option ℚ :=
  if el.typ = "node" then el.lat else el.centerLat

/-- `overpassElementToPointFeature`. -/
def overpassElementToPointFeature (el : OverpassElement) (l : String) : Option PointFeature :=
  let name := jsOrString (lookupTag el.tags ("name:" ++ l))
    (jsOrString (lookupTag el.tags "name:latin") (lookupTag el.tags "name"))
  if falsyNum (elemCoord0 el) || falsyNum (elemCoord1 el) then none
  else
    let subtitleParts :=
      (if (lookupTag el.tags "wikidata").isSome then ["Wikidata"] else []) ++
        (if (lookupTag el.tags "heritage").isSome then ["Heritage"] else [])
    some ⟨((elemCoord0 el).getD 0, (elemCoord1 el).getD 0),
      (jsOrString name (some "Objekt")).getD "Objekt",
      String.intercalate " · " subtitleParts⟩

/-- Modelled from the spec: "the element carries a usable coordinate
(lon/lat for a node, center.lon/center.lat otherwise)" — both coordinate
slots are present (and, being JSON numbers, finite). -/
def carriesUsableCoord (el : OverpassElement) : Prop :=
  elemCoord0 el ≠ none ∧ elemCoord1 el ≠ none

/-- Counterexample to C8 as stated: a node on the prime meridian
(`lon = 0`, `lat = 103/2`) carries a usable coordinate, yet the function
returns `null`, because `!coord[0]` treats the number `0` as missing. -/
theorem c8_counterexample :
    carriesUsableCoord ⟨"node", some 0, some (103 / 2), none, none, []⟩ ∧
    overpassElementToPointFeature ⟨"node", some 0, some (103 / 2), none, none, []⟩ "de" =
      none := by
  constructor
  · exact ⟨by decide, by decide⟩
  · rfl

/-- C8 (amended): `overpassElementToPointFeature` returns either `null` or
a point feature whose two coordinates are (finite) rationals taken from
the element's coordinate slots; it returns a feature exactly when both
slots are present *and nonzero* — a present-but-zero longitude or
latitude is treated as missing by the falsy check `!coord[0] || !coord[1]`. -/
theorem c8_overpass_point_feature (el : OverpassElement) (l : String) :
    (∀ f, overpassElementToPointFeature el l = some f →
      elemCoord0 el = some f.coordinates.1 ∧ elemCoord1 el = some f.coordinates.2 ∧
      f.coordinates.1 ≠ 0 ∧ f.coordinates.2 ≠ 0) ∧
    (overpassElementToPointFeature el l = none ↔
      (elemCoord0 el = none ∨ elemCoord0 el = some 0 ∨
       elemCoord1 el = none ∨ elemCoord1 el = some 0)) := by
  constructor
  · intro f hf
    rw [overpassElementToPointFeature] at hf
    rcases hc0 : elemCoord0 el with _ | v0 <;> rw [hc0] at hf
    · simp [falsyNum] at hf
    · rcases hc1 : elemCoord1 el with _ | v1 <;> rw [hc1] at hf
      · simp [falsyNum] at hf
      · by_cases hv0 : v0 = 0
        · subst hv0
          simp [falsyNum] at hf
        · by_cases hv1 : v1 = 0
          · subst hv1
            simp [falsyNum] at hf
          · rw [if_neg (by simp [falsyNum, hv0, hv1])] at hf
            have hf' := (Option.some.injEq _ _).mp hf
            subst hf'
            simp [hv0, hv1]
  · rcases hc0 : elemCoord0 el with _ | v0
    · rw [overpassElementToPointFeature, hc0]
      simp [falsyNum]
    · rcases hc1 : elemCoord1 el with _ | v1
      · rw [overpassElementToPointFeature, hc0, hc1]
        simp [falsyNum]
      · rw [overpassElementToPointFeature, hc0, hc1]
        by_cases hv0 : v0 = 0
        · subst hv0
          simp [falsyNum]
        · by_cases hv1 : v1 = 0
          · subst hv1
            simp [falsyNum]
          · rw [if_neg (by simp [falsyNum, hv0, hv1])]
            simp [hv0, hv1]

/-- Witness for C8 (amended) at a concrete element. -/
theorem c8_overpass_point_feature_witness :
    elemCoord0 ⟨"node", some 7, some 9, none, none, []⟩ = some 7 ∧
    elemCoord1 ⟨"node", some 7, some 9, none, none, []⟩ = some 9 ∧
    ((7 : ℚ) ≠ 0 ∧ (9 : ℚ) ≠ 0) := by
  have h := (c8_overpass_point_feature ⟨"node", some 7, some 9, none, none, []⟩ "de").1
    ⟨(7, 9), "Objekt", ""⟩ (by rfl)
  exact ⟨h.1, h.2.1, h.2.2.1, h.2.2.2⟩

/-! ## Overlay loading and road routing requests (C2)

`loadOverlay` (lines 255-272) loops over `config.overpassBases`, issuing
one POST per base until one succeeds (`return`) — a failed fetch or a
non-ok status throws into the `catch (e) { lastErr = e; continue; }` arm
and the next base is tried.  `computeRoadRoute` (lines 292-339) contains
exactly one `fetch` in each engine branch and no loop; its `catch` is
empty ("silently ignore for now").  The outcome of the request to a base
is abstracted as a boolean predicate.
-/

/-- The sequence of Overpass bases `loadOverlay` actually fetches: each base
in order until the first success. -/
def overlayFetchSequence (bases : List String) (ok : String → Bool) : List String :=
  match bases with
  | [] => []
  | b :: rest => if ok b then [b] else b :: overlayFetchSequence rest ok

/-- `DEFAULT_CONFIG.overpassBases`. -/
def defaultOverpassBases : List String :=
  ["https://overpass-api.de/api/interpreter",
   "https://overpass.kumi.systems/api/interpreter",
   "https://overpass.openstreetmap.fr/api/interpreter"]

/-- The number of HTTP requests one `computeRoadRoute` invocation issues:
none with fewer than two waypoints, exactly one `fetch` otherwise. -/
def roadRouteRequestCount (waypoints : List Waypoint) : Nat :=
  if waypoints.length < 2 then 0 else 1

/-- Counterexample to C2 as stated: with the default configuration, an
overlay load whose every request fails issues three HTTP requests — more
than the claimed "at most one HTTP request in total" — because the
`for … continue` loop retries the query on the next configured base. -/
theorem c2_counterexample :
    (overlayFetchSequence defaultOverpassBases fun _ => false).length = 3 := by
  decide

/-- C2 (amended): an overlay load tries the configured Overpass bases in
order, stopping at the first success, so it issues at most one request per
configured base (the fetch sequence is an initial segment of the base
list) and at most `bases.length` requests in total; a road-route
computation issues at most one request. -/
theorem c2_no_retry_per_base :
    (∀ (bases : List String) (ok : String → Bool),
      (overlayFetchSequence bases ok).length ≤ bases.length ∧
      ∃ t, bases = overlayFetchSequence bases ok ++ t) ∧
    (∀ waypoints : List Waypoint, roadRouteRequestCount waypoints ≤ 1) := by
  constructor
  · intro bases ok
    induction bases with
    | nil => exact ⟨by simp [overlayFetchSequence], [], by simp [overlayFetchSequence]⟩
    | cons b rest ih =>
      rw [overlayFetchSequence]
      by_cases hb : ok b
      · rw [if_pos hb]
        exact ⟨by simp, rest, by simp⟩
      · rw [if_neg hb]
        obtain ⟨hlen, t, ht⟩ := ih
        refine ⟨by simpa using hlen, t, ?_⟩
        rw [List.cons_append, ← ht]
  · intro waypoints
    rw [roadRouteRequestCount]
    split <;> omega

/-! ## Search-request cancellation (C3)

`runSearch` (lines 227-236) keeps one `AbortController` in
`searchAbortRef`; before each new geocoder fetch it aborts the previous
controller and installs a fresh one:

```
if (searchAbortRef.current) searchAbortRef.current.abort();
const ctl = new AbortController(); searchAbortRef.current = ctl;
try { … await fetch(url, { signal: ctl.signal }); … setSuggestions(feats); … }
catch (e) { if ((e as any)?.name !== "AbortError") setSuggestions([]); }
```

The event-driven behaviour is modelled as a transition system: requests
are numbered; `pending` is the set of started, not-yet-settled,
non-aborted requests; a `runSearch` event aborts the controller stored in
the ref (removing it from `pending`) and starts a fresh request.  A
settlement carries the outcome seen by the `try`/`catch`: an aborted fetch
rejects with `AbortError`, for which the catch leaves the suggestion list
untouched; only a non-aborted request can settle with `success` (which
replaces the suggestions) or `failure` (which clears them).
-/

inductive SearchOutcome where
  | success (feats : List String)
  | failure
  | abortError
deriving DecidableEq

inductive SearchEvent where
  | runSearch
  | settle (id : Nat) (outcome : SearchOutcome)
deriving DecidableEq

structure SearchState where
  nextId : Nat
  current : Option Nat
  pending : List Nat
  suggestions : List String
deriving DecidableEq

def initialSearchState : SearchState := ⟨0, none, [], []⟩

/-- One event of the search machinery. -/
def searchStep (st : SearchState) : SearchEvent → SearchState
  | .runSearch =>
    let afterAbort :=
      match st.current with
      | some i => st.pending.erase i
      | none => st.pending
    { st with
      nextId := st.nextId + 1
      current := some st.nextId
      pending := st.nextId :: afterAbort }
  | .settle i outcome =>
    if i ∈ st.pending then
      match outcome with
      | .success feats => { st with pending := st.pending.erase i, suggestions := feats }
      | .failure => { st with pending := st.pending.erase i, suggestions := [] }
      | .abortError => { st with pending := st.pending.erase i }
    else
      -- a settled request outside `pending` was aborted; its fetch rejects
      -- with AbortError and the catch leaves the state unchanged
      st

def searchRun (evs : List SearchEvent) : SearchState :=
  evs.foldl searchStep initialSearchState

/-- The cancellation invariant: every pending request is the one whose
controller the ref currently holds. -/
def searchInv (st : SearchState) : Prop :=
  st.pending = [] ∨ ∃ i, st.current = some i ∧ st.pending = [i]

theorem searchStep_inv {st : SearchState} (h : searchInv st) (e : SearchEvent) :
    searchInv (searchStep st e) := by
  match e with
  | .runSearch =>
    right
    refine ⟨st.nextId, rfl, ?_⟩
    rcases h with hnil | ⟨i, hcur, hpend⟩
    · rw [searchStep]
      rcases hc : st.current with _ | j <;> simp [hnil]
    · rw [searchStep, hcur]
      simp [hpend, List.erase_cons]
  | .settle i outcome =>
    by_cases hi : i ∈ st.pending
    · rcases h with hnil | ⟨j, hcur, hpend⟩
      · rw [hnil] at hi
        exact absurd hi (by simp)
      · have hij : i = j := by
          rw [hpend] at hi
          simpa using hi
        subst hij
        match outcome with
        | .success feats =>
          rw [searchStep, if_pos hi]
          left
          simp [hpend, List.erase_cons]
        | .failure =>
          rw [searchStep, if_pos hi]
          left
          simp [hpend, List.erase_cons]
        | .abortError =>
          rw [searchStep, if_pos hi]
          left
          simp [hpend, List.erase_cons]
    · match outcome with
      | .success feats =>
        rw [searchStep, if_neg hi]
        exact h
      | .failure =>
        rw [searchStep, if_neg hi]
        exact h
      | .abortError =>
        rw [searchStep, if_neg hi]
        exact h

theorem searchRun_inv (evs : List SearchEvent) : searchInv (searchRun evs) := by
  rw [searchRun]
  have h : ∀ (l : List SearchEvent) (st : SearchState), searchInv st →
      searchInv (l.foldl searchStep st) := by
    intro l
    induction l with
    | nil => intro st h; exact h
    | cons e rest ih =>
      intro st h
      exact ih _ (searchStep_inv h e)
  exact h evs initialSearchState (Or.inl rfl)

/-- C3: in every reachable state at most one non-aborted geocoder request
exists; a `runSearch` event aborts the previous in-flight request, leaving
exactly the new request pending; and the settlement of an aborted request
(AbortError) never changes the suggestion list. -/
theorem c3_search_cancellation :
    (∀ evs : List SearchEvent, (searchRun evs).pending.length ≤ 1) ∧
    (∀ evs : List SearchEvent,
      (searchStep (searchRun evs) SearchEvent.runSearch).pending = [(searchRun evs).nextId]) ∧
    (∀ (st : SearchState) (i : Nat),
      (searchStep st (SearchEvent.settle i SearchOutcome.abortError)).suggestions =
        st.suggestions) := by
  refine ⟨?_, ?_, ?_⟩
  · intro evs
    rcases searchRun_inv evs with hnil | ⟨i, _, hpend⟩
    · simp [hnil]
    · simp [hpend]
  · intro evs
    rcases searchRun_inv evs with hnil | ⟨i, hcur, hpend⟩
    · rw [searchStep]
      rcases hc : (searchRun evs).current with _ | j <;> simp [hnil]
    · rw [searchStep, hcur]
      simp [hpend, List.erase_cons]
  · intro st i
    rw [searchStep]
    by_cases hi : i ∈ st.pending
    · rw [if_pos hi]
    · rw [if_neg hi]

/-! ## `escapeHtml` (line 372)

```
function escapeHtml(s) {
  return s?.replace(/[&<>"']/g,
    (c) => ({"&":"&amp;","<":"&lt;",">":"&gt;","\"":"&quot;","'":"&#39;"}[c] as string)) || "";
}
```
The global replace maps each character independently; a string is its list
of characters.  `quoteChar` is `"` (code 34) and `aposChar` is `'`
(code 39), written via `Char.ofNat` to keep the source plain.
-/

def quoteChar : Char := Char.ofNat 34

def aposChar : Char := Char.ofNat 39

/-- The replacement applied to one character by the global regex replace. -/
def escapeChar (c : Char) : List Char :=
  if c = '&' then "&amp;".toList
  else if c = '<' then "&lt;".toList
  else if c = '>' then "&gt;".toList
  else if c = quoteChar then "&quot;".toList
  else if c = aposChar then "&#39;".toList
  else [c]

/-- `escapeHtml` on the characters of the input string. -/
def escapeHtml (s : List Char) : List Char :=
  s.flatMap escapeChar

/-- The five replacement entities. -/
def entityList : List (List Char) :=
  ["&amp;".toList, "&lt;".toList, "&gt;".toList, "&quot;".toList, "&#39;".toList]

theorem escapeChar_head_amp (c : Char) (i : Nat) (hi : i < (escapeChar c).length)
    (h : ((escapeChar c).drop i).head? = some '&') :
    i = 0 ∧ escapeChar c ∈ entityList := by
  rw [escapeChar] at hi h ⊢
  split_ifs at hi h ⊢ with h1 h2 h3 h4 h5
  · rw [show ("&amp;".toList).length = 5 from rfl] at hi
    interval_cases i
    · exact ⟨rfl, by simp [entityList]⟩
    · simp at h
    · simp at h
    · simp at h
    · simp at h
  · rw [show ("&lt;".toList).length = 4 from rfl] at hi
    interval_cases i
    · exact ⟨rfl, by simp [entityList]⟩
    · simp at h
    · simp at h
    · simp at h
  · rw [show ("&gt;".toList).length = 4 from rfl] at hi
    interval_cases i
    · exact ⟨rfl, by simp [entityList]⟩
    · simp at h
    · simp at h
    · simp at h
  · rw [show ("&quot;".toList).length = 6 from rfl] at hi
    interval_cases i
    · exact ⟨rfl, by simp [entityList]⟩
    · simp at h
    · simp at h
    · simp at h
    · simp at h
    · simp at h
  · rw [show ("&#39;".toList).length = 5 from rfl] at hi
    interval_cases i
    · exact ⟨rfl, by simp [entityList]⟩
    · simp at h
    · simp at h
    · simp at h
    · simp at h
  · rw [show ([c] : List Char).length = 1 from rfl] at hi
    interval_cases i
    simp at h
    exact absurd h h1

theorem escapeChar_no_meta (c x : Char) (hx : x ∈ escapeChar c) :
    x ≠ '<' ∧ x ≠ '>' ∧ x ≠ quoteChar ∧ x ≠ aposChar := by
  rw [escapeChar] at hx
  split_ifs at hx with h1 h2 h3 h4 h5
  · rw [show "&amp;".toList = ['&', 'a', 'm', 'p', ';'] from rfl] at hx
    simp only [List.mem_cons, List.not_mem_nil, or_false] at hx
    rcases hx with rfl | rfl | rfl | rfl | rfl <;> refine ⟨?_, ?_, ?_, ?_⟩ <;> decide
  · rw [show "&lt;".toList = ['&', 'l', 't', ';'] from rfl] at hx
    simp only [List.mem_cons, List.not_mem_nil, or_false] at hx
    rcases hx with rfl | rfl | rfl | rfl <;> refine ⟨?_, ?_, ?_, ?_⟩ <;> decide
  · rw [show "&gt;".toList = ['&', 'g', 't', ';'] from rfl] at hx
    simp only [List.mem_cons, List.not_mem_nil, or_false] at hx
    rcases hx with rfl | rfl | rfl | rfl <;> refine ⟨?_, ?_, ?_, ?_⟩ <;> decide
  · rw [show "&quot;".toList = ['&', 'q', 'u', 'o', 't', ';'] from rfl] at hx
    simp only [List.mem_cons, List.not_mem_nil, or_false] at hx
    rcases hx with rfl | rfl | rfl | rfl | rfl | rfl <;> refine ⟨?_, ?_, ?_, ?_⟩ <;> decide
  · rw [show "&#39;".toList = ['&', '#', '3', '9', ';'] from rfl] at hx
    simp only [List.mem_cons, List.not_mem_nil, or_false] at hx
    rcases hx with rfl | rfl | rfl | rfl | rfl <;> refine ⟨?_, ?_, ?_, ?_⟩ <;> decide
  · simp only [List.mem_cons, List.not_mem_nil, or_false] at hx
    subst hx
    exact ⟨h2, h3, h4, h5⟩

theorem escapeHtml_amp (s : List Char) :
    ∀ (i : Nat) (rest : List Char), (escapeHtml s).drop i = '&' :: rest →
      ∃ e ∈ entityList, ∃ t, '&' :: rest = e ++ t := by
  induction s with
  | nil =>
    intro i rest h
    rw [escapeHtml] at h
    simp at h
  | cons c cs ih =>
    intro i rest h
    rw [escapeHtml, List.flatMap_cons] at h
    by_cases hi : (escapeChar c).length ≤ i
    · obtain ⟨j, rfl⟩ : ∃ j, i = (escapeChar c).length + j := ⟨i - (escapeChar c).length, by omega⟩
      rw [List.drop_append] at h
      exact ih j rest h
    · push_neg at hi
      rw [List.drop_append_of_le_length (le_of_lt hi)] at h
      have hne : (escapeChar c).drop i ≠ [] := by
        intro hcon
        rw [List.drop_eq_nil_iff] at hcon
        omega
      obtain ⟨d, ds, hds⟩ := List.exists_cons_of_ne_nil hne
      rw [hds, List.cons_append] at h
      have hd : d = '&' := ((List.cons.injEq _ _ _ _).mp h).1
      subst hd
      have hhead : ((escapeChar c).drop i).head? = some '&' := by rw [hds]; rfl
      obtain ⟨hi0, hent⟩ := escapeChar_head_amp c i hi hhead
      subst hi0
      rw [List.drop_zero] at hds
      refine ⟨escapeChar c, hent, cs.flatMap escapeChar, ?_⟩
      rw [hds, List.cons_append]
      exact h.symm

/-- C10: `escapeHtml` neutralizes HTML metacharacters — its output never
contains `<`, `>`, `"` or `'`, and every `&` in the output begins one of
the five replacement entities, so popup HTML built from untrusted Overpass
tag values contains no unescaped markup from those values. -/
theorem c10_escapeHtml_neutralizes (s : List Char) :
    ('<' ∉ escapeHtml s ∧ '>' ∉ escapeHtml s ∧ quoteChar ∉ escapeHtml s ∧
      aposChar ∉ escapeHtml s) ∧
    (∀ (i : Nat) (rest : List Char), (escapeHtml s).drop i = '&' :: rest →
      ∃ e ∈ entityList, ∃ t, '&' :: rest = e ++ t) := by
  refine ⟨⟨?_, ?_, ?_, ?_⟩, escapeHtml_amp s⟩
  · intro hmem
    rw [escapeHtml, List.mem_flatMap] at hmem
    obtain ⟨c, -, hc⟩ := hmem
    exact (escapeChar_no_meta c _ hc).1 rfl
  · intro hmem
    rw [escapeHtml, List.mem_flatMap] at hmem
    obtain ⟨c, -, hc⟩ := hmem
    exact (escapeChar_no_meta c _ hc).2.1 rfl
  · intro hmem
    rw [escapeHtml, List.mem_flatMap] at hmem
    obtain ⟨c, -, hc⟩ := hmem
    exact (escapeChar_no_meta c _ hc).2.2.1 rfl
  · intro hmem
    rw [escapeHtml, List.mem_flatMap] at hmem
    obtain ⟨c, -, hc⟩ := hmem
    exact (escapeChar_no_meta c _ hc).2.2.2 rfl

/-- Witness for C10 at a concrete string. -/
theorem c10_escapeHtml_neutralizes_witness :
    '<' ∉ escapeHtml ['a', '<', '&'] ∧
    ∃ e ∈ entityList, ∃ t, ('&' :: "lt;&amp;".toList) = e ++ t := by
  constructor
  · exact (c10_escapeHtml_neutralizes ['a', '<', '&']).1.1
  · exact (c10_escapeHtml_neutralizes ['a', '<', '&']).2 1 ("lt;&amp;".toList) (by rfl)
